import Mathlib

/-!
Shallow embedding of the blending engine of `bitcoin-blended-fee-estimator`
(`src/lib/DataProviderManager.ts`, embedded from the version whose
`mergeFeeEstimates` takes a `minRelayFeeRate` argument).

Conventions of the embedding:
* confirmation targets and block heights are `Nat`, fee rates are `ℚ`
  (JS numbers; all arithmetic in the engine is exact on the values that occur);
* a JS object keyed by numeric block targets is an association list
  `List (Nat × ℚ)`; `Object.keys(..).map(Number).sort((a,b) => a-b)` is
  modelled by sorting the association list by key;
* a provider that throws during its fetch is an `Option DataPoint` that is
  `none`; `Promise.all` over the providers is the list of outcomes in
  registration order.
-/

/-- One snapshot produced by a provider fetch: the provider's category
(`instanceof MempoolProvider`), its registration index (`providers.indexOf`),
the reported chain height and tip hash, the fee-by-target mapping and the
minimum relay fee rate. -/
structure DataPoint where
  isMempool : Bool
  regIndex : Nat
  blockHeight : Nat
  blockHash : String
  feeEstimates : List (Nat × ℚ)
  minRelayFeeRate : ℚ
deriving DecidableEq, Repr

/-- Result shape of `getData` (`Estimates`). Fee values stay rational because
the synthesized fallback entry is written without `Math.ceil` in the source. -/
structure Estimates where
  current_block_height : Nat
  current_block_hash : String
  fee_by_block_target : List (Nat × ℚ)
  min_relay_feerate : ℚ
deriving DecidableEq, Repr

/-- Floor of a rational, written so that it evaluates by kernel reduction;
`jsFloor_eq` below proves it equal to `Int.floor`. -/
def jsFloor (x : ℚ) : ℤ := x.num / (x.den : ℤ)

/-- JS `Math.ceil`; `jsCeil_eq` below proves it equal to `Int.ceil`. -/
def jsCeil (x : ℚ) : ℤ := -jsFloor (-x)

/-- JS `Math.round` on the rationals that occur here: round half toward
positive infinity, that is the floor of `x + 1/2` (written with `mkRat` so
that it evaluates by kernel reduction; `jsRound_eq` below). -/
def jsRound (x : ℚ) : ℤ := jsFloor (x + mkRat 1 2)

/-- JS `Number.EPSILON`, the rational `2 ^ (-52)` (`epsJS_eq` below). -/
def epsJS : ℚ := mkRat 1 (2 ^ 52)

/-- The fee normalisation applied in `fetchDataPoints`:
`Math.round((value + Number.EPSILON) * 1000) / 1000` (the division written
with `mkRat`; `round3_eq` below). -/
def round3 (v : ℚ) : ℚ := mkRat (jsRound ((v + epsJS) * 1000)) 1000

/-- Rounding of every fee estimate of a snapshot, as done inside the
per-provider block of `fetchDataPoints`. -/
def roundDataPoint (dp : DataPoint) : DataPoint :=
  { dp with feeEstimates := dp.feeEstimates.map (fun kv => (kv.1, round3 kv.2)) }

/-- `fetchDataPoints`: each provider either yields a snapshot (whose fee
estimates get rounded to 3 decimals) or throws (`none`); null results are
filtered out. -/
def fetchDataPoints (outcomes : List (Option DataPoint)) : List DataPoint :=
  (outcomes.filterMap id).map roundDataPoint

/-- Key comparison used to sort one snapshot's fee pairs in ascending target
order (`Object.keys(estimates).map(Number).sort((a, b) => a - b)`). -/
def keyLE (a b : Nat × ℚ) : Prop := a.1 ≤ b.1

instance : DecidableRel keyLE := fun a b => inferInstanceAs (Decidable (a.1 ≤ b.1))

instance : IsTotal (Nat × ℚ) keyLE := ⟨fun a b => Nat.le_total a.1 b.1⟩

instance : IsTrans (Nat × ℚ) keyLE := ⟨fun _ _ _ => Nat.le_trans⟩

/-- Ascending-target ordering of a snapshot's fee pairs. -/
def sortPairs (es : List (Nat × ℚ)) : List (Nat × ℚ) := es.insertionSort keyLE

/-- The comparator of `getSortedDataPoints` as a total preorder: `a` may come
before `b` iff the comparator returns a non-positive number on `(a, b)`.
Mempool providers come first; within one category higher height first; then
registration order. -/
def RankLE (a b : DataPoint) : Prop :=
  (a.isMempool = true ∧ b.isMempool = false) ∨
    (a.isMempool = b.isMempool ∧
      (b.blockHeight < a.blockHeight ∨
        (a.blockHeight = b.blockHeight ∧ a.regIndex ≤ b.regIndex)))

instance : DecidableRel RankLE := fun a b => by
  unfold RankLE
  infer_instance

instance : IsTotal DataPoint RankLE := by
  constructor
  intro a b
  unfold RankLE
  rcases ha : a.isMempool <;> rcases hb : b.isMempool <;>
    rcases Nat.lt_trichotomy a.blockHeight b.blockHeight with h | h | h <;>
      first
        | exact Or.inl (Or.inr ⟨rfl, Or.inl h⟩)
        | exact Or.inr (Or.inr ⟨rfl, Or.inl h⟩)
        | (rcases Nat.le_total a.regIndex b.regIndex with hr | hr
           · exact Or.inl (Or.inr ⟨rfl, Or.inr ⟨h, hr⟩⟩)
           · exact Or.inr (Or.inr ⟨rfl, Or.inr ⟨h.symm, hr⟩⟩))
        | exact Or.inl (Or.inl ⟨rfl, rfl⟩)
        | exact Or.inr (Or.inl ⟨rfl, rfl⟩)

instance : IsTrans DataPoint RankLE := by
  constructor
  intro a b c hab hbc
  unfold RankLE at *
  rcases hab with ⟨ha, hb⟩ | ⟨hab, h1⟩
  · rcases hbc with ⟨hb2, _⟩ | ⟨hbc, _⟩
    · rw [hb] at hb2; exact absurd hb2 (by simp)
    · exact Or.inl ⟨ha, hbc ▸ hb⟩
  · rcases hbc with ⟨hb2, hc⟩ | ⟨hbc, h2⟩
    · exact Or.inl ⟨hab ▸ hb2, hc⟩
    · refine Or.inr ⟨hab.trans hbc, ?_⟩
      rcases h1 with h1 | ⟨h1e, h1i⟩
      · rcases h2 with h2 | ⟨h2e, _⟩
        · exact Or.inl (h2.trans h1)
        · exact Or.inl (h2e ▸ h1)
      · rcases h2 with h2 | ⟨h2e, h2i⟩
        · exact Or.inl (h1e ▸ h2)
        · exact Or.inr ⟨h1e.trans h2e, h1i.trans h2i⟩

/-- `getSortedDataPoints` applied to already-fetched snapshots: JS
`Array.prototype.sort` with the consistent comparator of the source, modelled
as an insertion sort by the induced total preorder `RankLE`. -/
def getSortedDataPoints (dps : List DataPoint) : List DataPoint :=
  dps.insertionSort RankLE

/-- The relevance filter of `getRelevantDataPoints`: with `dataPoints` the
sorted list, keep `dp` iff `dataPoints[0].blockHeight - dp.blockHeight` is at
most `maxHeightDelta` (the JS subtraction may be negative, hence `ℤ`). -/
def getRelevantDataPoints (maxHeightDelta : Nat) (sorted : List DataPoint) :
    List DataPoint :=
  match sorted with
  | [] => []
  | top :: rest =>
    (top :: rest).filter
      (fun dp => (top.blockHeight : ℤ) - (dp.blockHeight : ℤ) ≤ (maxHeightDelta : ℤ))

/-- `getHighestMinRelayFeeRate`: `Math.max` over the data points' minimum
relay fee rates. It is only ever called on a non-empty list; the `[]` case is
given the junk value `0`. -/
def getHighestMinRelayFeeRate (dps : List DataPoint) : ℚ :=
  match dps with
  | [] => 0
  | d :: rest => rest.foldl (fun acc dp => max acc dp.minRelayFeeRate) d.minRelayFeeRate

/-- `filterEstimates`: drop a pair when its fee is below the configured
minimum or below the minimum relay fee rate. -/
def filterEstimates (feeEstimates : List (Nat × ℚ)) (minRelayFeeRate : ℚ)
    (minConfiguredFeeRate : ℚ) : List (Nat × ℚ) :=
  feeEstimates.filter
    (fun kv => minConfiguredFeeRate ≤ kv.2 ∧ minRelayFeeRate ≤ kv.2)

/-- `Math.max(...Object.keys(mergedEstimates).map(Number))` for a non-empty
merged mapping (the source short-circuits on the empty mapping before reading
this value, so the `0` default is never observable). -/
def maxKeyNat (m : List (Nat × ℚ)) : Nat :=
  m.foldl (fun acc kv => max acc kv.1) 0

/-- `Math.min(...Object.values(mergedEstimates))` for a non-empty merged
mapping (same remark as for `maxKeyNat`). -/
def minValQ (m : List (Nat × ℚ)) : ℚ :=
  match m with
  | [] => 0
  | kv :: rest => rest.foldl (fun acc x => min acc x.2) kv.2

/-- The body of the `keys.forEach` loop of `mergeFeeEstimates`: a pair is
appended iff the merged mapping is empty, or its target exceeds every present
target and its fee is below every present fee. -/
def insertStep (m : List (Nat × ℚ)) (kv : Nat × ℚ) : List (Nat × ℚ) :=
  if m = [] ∨ (maxKeyNat m < kv.1 ∧ kv.2 < minValQ m) then m ++ [kv] else m

/-- `mergeFeeEstimates(dataPoints, minRelayFeeRate)`: fold the ranked data
points, each contributing its floor-filtered pairs in ascending target order
through `insertStep`. `feeMinimum` is the manager's configured field. -/
def mergeFeeEstimates (feeMinimum : ℚ) (dataPoints : List DataPoint)
    (minRelayFeeRate : ℚ) : List (Nat × ℚ) :=
  dataPoints.foldl
    (fun merged dp =>
      (sortPairs (filterEstimates dp.feeEstimates minRelayFeeRate feeMinimum)).foldl
        insertStep merged)
    []

/-- The post-processing loop of `getData`:
`Math.ceil(estimate * (1000 * feeMultiplier))` on every merged entry. -/
def postFees (feeMultiplier : ℚ) (merged : List (Nat × ℚ)) : List (Nat × ℚ) :=
  merged.map (fun kv => (kv.1, ((jsCeil (kv.2 * (1000 * feeMultiplier)) : ℤ) : ℚ)))

/-- Assembly of the `Estimates` value in `getData` from the relevant data
points. An empty relevant list makes `dataPoints[0].blockHeight` throw a
`TypeError` in JS, modelled by `none`. -/
def assembleEstimates (feeMultiplier feeMinimum : ℚ) :
    List DataPoint → Option Estimates
  | [] => none
  | top :: rest =>
    some
      { current_block_height := top.blockHeight
        current_block_hash := top.blockHash
        fee_by_block_target :=
          if postFees feeMultiplier
              (mergeFeeEstimates feeMinimum (top :: rest)
                (getHighestMinRelayFeeRate (top :: rest))) = [] then
            [(1, max (feeMinimum * 1000)
                (getHighestMinRelayFeeRate (top :: rest) * (1000 * feeMultiplier)))]
          else
            postFees feeMultiplier
              (mergeFeeEstimates feeMinimum (top :: rest)
                (getHighestMinRelayFeeRate (top :: rest)))
        min_relay_feerate :=
          max (getHighestMinRelayFeeRate (top :: rest) * (1000 * feeMultiplier))
            (feeMinimum * 1000) }

/-- The cache-miss path of `getData` on already-fetched snapshots: sort,
filter for relevance, merge, post-process. -/
def computeEstimates (maxHeightDelta : Nat) (feeMultiplier feeMinimum : ℚ)
    (fetched : List DataPoint) : Option Estimates :=
  assembleEstimates feeMultiplier feeMinimum
    (getRelevantDataPoints maxHeightDelta (getSortedDataPoints fetched))

/-- The manager's NodeCache, modelled from the library's documented `stdTTL`
semantics: a single slot under the fixed key, holding the stored value and the
time it was stored. -/
structure CacheState where
  entry : Option (Estimates × ℚ)
deriving DecidableEq

/-- NodeCache `get`: a stored entry is returned while unexpired; `stdTTL = 0`
means the entry never expires. -/
def cacheGet (stdTTL now : ℚ) (st : CacheState) : Option Estimates :=
  match st.entry with
  | none => none
  | some (v, storedAt) =>
    if stdTTL = 0 ∨ now < storedAt + stdTTL then some v else none

/-- NodeCache `set`: the slot is replaced wholesale with a fresh store time. -/
def cacheSet (now : ℚ) (v : Estimates) : CacheState := ⟨some (v, now)⟩

/-- `getData` with the cache: on a hit, the cached value is returned and no
collection cycle runs; on a miss one cycle runs, and on success its result is
cached. The `Nat` component counts the collection cycles (`fetchDataPoints`
invocations) the call performed. A `none` result is the thrown `TypeError` of
the empty-data-points case, which leaves the cache unchanged. -/
def getData (stdTTL : ℚ) (maxHeightDelta : Nat) (feeMultiplier feeMinimum : ℚ)
    (outcomes : List (Option DataPoint)) (now : ℚ) (st : CacheState) :
    Option Estimates × CacheState × Nat :=
  match cacheGet stdTTL now st with
  | some v => (some v, st, 0)
  | none =>
    match computeEstimates maxHeightDelta feeMultiplier feeMinimum
        (fetchDataPoints outcomes) with
    | none => (none, st, 1)
    | some est => (some est, cacheSet now est, 1)

/-- The merged mapping, read in insertion order, has strictly increasing
targets and strictly decreasing fees. -/
def StrictCurve (m : List (Nat × ℚ)) : Prop :=
  m.Pairwise (fun a b => a.1 < b.1 ∧ b.2 < a.2)

/-- The ranking policy as the spec states it: `a` is allowed to precede `b`
iff `a` is a mempool snapshot and `b` is not, or both are of the same category
and `a` has the higher height, or same category and height and `a` was
registered no later than `b`. -/
def RankBefore (a b : DataPoint) : Prop :=
  (a.isMempool = true ∧ b.isMempool = false) ∨
    (a.isMempool = b.isMempool ∧ b.blockHeight < a.blockHeight) ∨
    (a.isMempool = b.isMempool ∧ a.blockHeight = b.blockHeight ∧
      a.regIndex ≤ b.regIndex)

/-! ### Concrete snapshots used to instantiate the theorems -/

/-- Snapshot with two fee pairs, for exercising the merge monotonicity. -/
def dpWa : DataPoint := ⟨false, 0, 100, "ha", [(1, 10), (2, 5)], 0⟩

/-- Snapshot whose only fee pair (fee 1) sits below a configured minimum of 2,
used against the claimed insertion rule. -/
def dpX2 : DataPoint := ⟨false, 0, 100, "h2", [(5, 1)], 0⟩

/-- Snapshot whose only fee pair (fee 1) sits below a configured minimum of 2. -/
def dpX3 : DataPoint := ⟨false, 0, 100, "h3", [(1, 1)], 0⟩

/-- Snapshot with a fee pair (fee 1) below a configured minimum of 3. -/
def dpX4 : DataPoint := ⟨false, 0, 100, "h4", [(1, 1)], 0⟩

/-- Snapshot clearing a configured minimum of 2, for the floor witness. -/
def dpW3 : DataPoint := ⟨false, 0, 100, "hw3", [(1, 10)], 0⟩

/-- Snapshot with fee 1, below a configured minimum of 2, for the fallback
witness. -/
def dpW4 : DataPoint := ⟨false, 0, 100, "hw4", [(1, 1)], 0⟩

/-- Lagging mempool snapshot registered second: height 1000. -/
def dpM5 : DataPoint := ⟨true, 1, 1000, "hm", [(1, 10)], 0⟩

/-- Fresh non-mempool snapshot registered first: height 1005. -/
def dpB5 : DataPoint := ⟨false, 0, 1005, "hb", [], 0⟩

/-- Mempool snapshot for the ranking witness. -/
def dpW6 : DataPoint := ⟨true, 0, 500, "h6", [(1, 7)], 1⟩

/-- Snapshot for the caching witness. -/
def dpW9 : DataPoint := ⟨true, 0, 800, "h9", [(1, 12)], 0⟩

/-- Snapshot with the four-decimal fee 1.2345, for the rounding witness. -/
def dpW10 : DataPoint := ⟨false, 0, 300, "h10", [(1, mkRat 12345 10000)], 0⟩

/-- Source A of the spec example: live (mempool), height 1001. -/
def dpA7 : DataPoint := ⟨true, 0, 1001, "hashA", [(1, 20), (10, 1)], 0⟩

/-- Source B of the spec example: historical, height 1000. -/
def dpB7 : DataPoint := ⟨false, 1, 1000, "hashB", [(1, 30), (2, 20)], 0⟩

/-- Source C of the spec example: historical, height 999. -/
def dpC7 : DataPoint := ⟨false, 2, 999, "hashC", [(1, 25), (2, 15), (3, 5), (5, 3)], 0⟩

/-! ### Bridge lemmas for the computable floor and ceiling -/

theorem jsFloor_eq (x : ℚ) : jsFloor x = ⌊x⌋ := by
  unfold jsFloor
  exact Rat.floor_def.symm

theorem jsCeil_eq (x : ℚ) : jsCeil x = ⌈x⌉ := by
  unfold jsCeil
  rw [jsFloor_eq, Int.floor_neg, neg_neg]

/-! ### Bounds delivered by `maxKeyNat` and `minValQ` -/

theorem le_foldl_max (l : List (Nat × ℚ)) (a : Nat) :
    a ≤ l.foldl (fun acc kv => max acc kv.1) a := by
  induction l generalizing a with
  | nil => exact Nat.le_refl a
  | cons hd tl ih => exact Nat.le_trans (Nat.le_max_left a hd.1) (ih (max a hd.1))

theorem mem_le_foldl_max (l : List (Nat × ℚ)) (a : Nat) (kv : Nat × ℚ)
    (h : kv ∈ l) : kv.1 ≤ l.foldl (fun acc kv => max acc kv.1) a := by
  induction l generalizing a with
  | nil => cases h
  | cons hd tl ih =>
    rcases List.mem_cons.mp h with h | h
    · subst h
      exact Nat.le_trans (Nat.le_max_right a kv.1) (le_foldl_max tl (max a kv.1))
    · exact ih (max a hd.1) h

theorem le_maxKeyNat (m : List (Nat × ℚ)) (kv : Nat × ℚ) (h : kv ∈ m) :
    kv.1 ≤ maxKeyNat m :=
  mem_le_foldl_max m 0 kv h

theorem foldl_min_le (l : List (Nat × ℚ)) (a : ℚ) :
    l.foldl (fun acc kv => min acc kv.2) a ≤ a := by
  induction l generalizing a with
  | nil => exact le_refl a
  | cons hd tl ih => exact le_trans (ih (min a hd.2)) (min_le_left a hd.2)

theorem foldl_min_le_mem (l : List (Nat × ℚ)) (a : ℚ) (kv : Nat × ℚ)
    (h : kv ∈ l) : l.foldl (fun acc kv => min acc kv.2) a ≤ kv.2 := by
  induction l generalizing a with
  | nil => cases h
  | cons hd tl ih =>
    rcases List.mem_cons.mp h with h | h
    · subst h
      exact le_trans (foldl_min_le tl (min a kv.2)) (min_le_right a kv.2)
    · exact ih (min a hd.2) h

theorem minValQ_le (m : List (Nat × ℚ)) (kv : Nat × ℚ) (h : kv ∈ m) :
    minValQ m ≤ kv.2 := by
  cases m with
  | nil => cases h
  | cons hd tl =>
    rcases List.mem_cons.mp h with h | h
    · subst h
      exact foldl_min_le tl kv.2
    · exact foldl_min_le_mem tl hd.2 kv h

/-! ### The frontier-extension invariant of the merged mapping -/

theorem insertStep_mem (m : List (Nat × ℚ)) (kv kv₂ : Nat × ℚ)
    (h : kv₂ ∈ insertStep m kv) : kv₂ ∈ m ∨ kv₂ = kv := by
  unfold insertStep at h
  by_cases hc : m = [] ∨ (maxKeyNat m < kv.1 ∧ kv.2 < minValQ m)
  · rw [if_pos hc] at h
    rcases List.mem_append.mp h with h | h
    · exact Or.inl h
    · exact Or.inr (List.mem_singleton.mp h)
  · rw [if_neg hc] at h
    exact Or.inl h

theorem insertStep_strict (m : List (Nat × ℚ)) (kv : Nat × ℚ)
    (h : StrictCurve m) : StrictCurve (insertStep m kv) := by
  unfold insertStep
  by_cases hc : m = [] ∨ (maxKeyNat m < kv.1 ∧ kv.2 < minValQ m)
  · rw [if_pos hc]
    rcases hc with hc | hc
    · subst hc
      exact List.pairwise_singleton _ kv
    · refine List.pairwise_append.mpr ⟨h, List.pairwise_singleton _ kv, ?_⟩
      intro a ha b hb
      rw [List.mem_singleton.mp hb]
      exact ⟨Nat.lt_of_le_of_lt (le_maxKeyNat m a ha) hc.1,
        lt_of_lt_of_le hc.2 (minValQ_le m a ha)⟩
  · rw [if_neg hc]
    exact h

theorem foldl_insertStep_strict (l : List (Nat × ℚ)) (m : List (Nat × ℚ))
    (h : StrictCurve m) : StrictCurve (l.foldl insertStep m) := by
  induction l generalizing m with
  | nil => exact h
  | cons hd tl ih => exact ih (insertStep m hd) (insertStep_strict m hd h)

theorem mergeFeeEstimates_strict (feeMinimum : ℚ) (dataPoints : List DataPoint)
    (minRelayFeeRate : ℚ) :
    StrictCurve (mergeFeeEstimates feeMinimum dataPoints minRelayFeeRate) := by
  unfold mergeFeeEstimates
  generalize hinit : ([] : List (Nat × ℚ)) = init
  have hstrict : StrictCurve init := by
    rw [← hinit]; exact List.Pairwise.nil
  clear hinit
  induction dataPoints generalizing init with
  | nil => exact hstrict
  | cons hd tl ih =>
    exact ih _ (foldl_insertStep_strict _ init hstrict)

theorem strictCurve_rel (m : List (Nat × ℚ)) (h : StrictCurve m)
    (x y : Nat × ℚ) (hx : x ∈ m) (hy : y ∈ m) (hlt : x.1 < y.1) : y.2 < x.2 := by
  obtain ⟨i, hi, hxe⟩ := List.mem_iff_getElem.mp hx
  obtain ⟨j, hj, hye⟩ := List.mem_iff_getElem.mp hy
  have hp := List.pairwise_iff_getElem.mp h
  rcases Nat.lt_trichotomy i j with hij | hij | hij
  · have := hp i j hi hj hij
    rw [hxe, hye] at this
    exact this.2
  · subst hij
    rw [hxe] at hye
    rw [hye] at hlt
    exact absurd hlt (Nat.lt_irrefl _)
  · have := hp j i hj hi hij
    rw [hxe, hye] at this
    exact absurd (Nat.lt_trans hlt this.1) (Nat.lt_irrefl _)

/-! ### Provenance of merged entries -/

theorem foldl_insertStep_pred (P : Nat × ℚ → Prop) (l : List (Nat × ℚ))
    (m : List (Nat × ℚ)) (hm : ∀ kv ∈ m, P kv) (hl : ∀ kv ∈ l, P kv) :
    ∀ kv ∈ l.foldl insertStep m, P kv := by
  induction l generalizing m with
  | nil => exact hm
  | cons hd tl ih =>
    refine ih (insertStep m hd) ?_ (fun kv hkv => hl kv (List.mem_cons_of_mem hd hkv))
    intro kv hkv
    rcases insertStep_mem m hd kv hkv with h | h
    · exact hm kv h
    · exact h ▸ hl hd (List.mem_cons_self hd tl)

theorem mem_filterEstimates (es : List (Nat × ℚ)) (minRelayFeeRate : ℚ)
    (minConfiguredFeeRate : ℚ) (kv : Nat × ℚ) :
    kv ∈ filterEstimates es minRelayFeeRate minConfiguredFeeRate ↔
      kv ∈ es ∧ minConfiguredFeeRate ≤ kv.2 ∧ minRelayFeeRate ≤ kv.2 := by
  unfold filterEstimates
  simp [List.mem_filter]

theorem mem_sortPairs (es : List (Nat × ℚ)) (kv : Nat × ℚ) :
    kv ∈ sortPairs es ↔ kv ∈ es := by
  unfold sortPairs
  exact List.mem_insertionSort keyLE

theorem mergeFeeEstimates_mem_bound (feeMinimum : ℚ) (dataPoints : List DataPoint)
    (minRelayFeeRate : ℚ) (kv : Nat × ℚ)
    (h : kv ∈ mergeFeeEstimates feeMinimum dataPoints minRelayFeeRate) :
    feeMinimum ≤ kv.2 ∧ minRelayFeeRate ≤ kv.2 := by
  unfold mergeFeeEstimates at h
  revert h
  generalize hinit : ([] : List (Nat × ℚ)) = init
  have hm : ∀ kv ∈ init, feeMinimum ≤ kv.2 ∧ minRelayFeeRate ≤ kv.2 := by
    rw [← hinit]
    intro kv hkv
    cases hkv
  clear hinit
  induction dataPoints generalizing init with
  | nil => exact fun h => hm kv h
  | cons hd tl ih =>
    intro h
    refine ih _ ?_ h
    refine foldl_insertStep_pred _ _ init hm ?_
    intro kv2 hkv2
    have := (mem_filterEstimates hd.feeEstimates minRelayFeeRate feeMinimum kv2).mp
      ((mem_sortPairs _ kv2).mp hkv2)
    exact this.2

/-! ### Structure of the sorted and relevance-filtered lists -/

theorem rankLE_iff (a b : DataPoint) : RankLE a b ↔ RankBefore a b := by
  unfold RankLE RankBefore
  tauto

theorem getSortedDataPoints_perm (l : List DataPoint) :
    (getSortedDataPoints l).Perm l :=
  List.perm_insertionSort RankLE l

theorem getSortedDataPoints_pairwise (l : List DataPoint) :
    (getSortedDataPoints l).Pairwise RankBefore := by
  have h : (getSortedDataPoints l).Pairwise RankLE :=
    List.sorted_insertionSort RankLE l
  exact h.imp (fun hab => (rankLE_iff _ _).mp hab)

theorem getSortedDataPoints_eq_nil_iff (l : List DataPoint) :
    getSortedDataPoints l = [] ↔ l = [] := by
  constructor
  · intro h
    have hp := List.perm_insertionSort RankLE l
    rw [getSortedDataPoints] at h
    rw [h] at hp
    exact hp.symm.eq_nil
  · intro h
    subst h
    rfl

theorem getRelevantDataPoints_cons (maxHeightDelta : Nat) (top : DataPoint)
    (rest : List DataPoint) :
    getRelevantDataPoints maxHeightDelta (top :: rest) =
      top :: rest.filter
        (fun dp => (top.blockHeight : ℤ) - (dp.blockHeight : ℤ) ≤ (maxHeightDelta : ℤ)) := by
  have h : getRelevantDataPoints maxHeightDelta (top :: rest) =
      (top :: rest).filter
        (fun dp => (top.blockHeight : ℤ) - (dp.blockHeight : ℤ) ≤ (maxHeightDelta : ℤ)) :=
    rfl
  rw [h, List.filter_cons_of_pos (by simp)]

theorem getRelevantDataPoints_eq_nil_iff (maxHeightDelta : Nat)
    (sorted : List DataPoint) :
    getRelevantDataPoints maxHeightDelta sorted = [] ↔ sorted = [] := by
  cases sorted with
  | nil => simp [getRelevantDataPoints]
  | cons top rest =>
    rw [getRelevantDataPoints_cons]
    simp

theorem assembleEstimates_eq_none_iff (feeMultiplier feeMinimum : ℚ)
    (l : List DataPoint) :
    assembleEstimates feeMultiplier feeMinimum l = none ↔ l = [] := by
  cases l with
  | nil => simp [assembleEstimates]
  | cons top rest => simp [assembleEstimates]

theorem fetchDataPoints_eq_nil_iff (outcomes : List (Option DataPoint)) :
    fetchDataPoints outcomes = [] ↔ outcomes.filterMap id = [] := by
  unfold fetchDataPoints
  simp

theorem computeEstimates_eq_none_iff (maxHeightDelta : Nat)
    (feeMultiplier feeMinimum : ℚ) (fetched : List DataPoint) :
    computeEstimates maxHeightDelta feeMultiplier feeMinimum fetched = none ↔
      fetched = [] := by
  unfold computeEstimates
  rw [assembleEstimates_eq_none_iff, getRelevantDataPoints_eq_nil_iff,
    getSortedDataPoints_eq_nil_iff]

theorem foldl_insertStep_mem (l : List (Nat × ℚ)) (m : List (Nat × ℚ))
    (kv : Nat × ℚ) (h : kv ∈ l.foldl insertStep m) : kv ∈ m ∨ kv ∈ l := by
  induction l generalizing m with
  | nil => exact Or.inl h
  | cons hd tl ih =>
    rcases ih (insertStep m hd) h with h2 | h2
    · rcases insertStep_mem m hd kv h2 with h3 | h3
      · exact Or.inl h3
      · exact Or.inr (h3 ▸ List.mem_cons_self hd tl)
    · exact Or.inr (List.mem_cons_of_mem hd h2)

theorem foldl_merge_mem_src (feeMinimum minRelayFeeRate : ℚ)
    (dps : List DataPoint) (init : List (Nat × ℚ)) (kv : Nat × ℚ)
    (h : kv ∈ dps.foldl
      (fun merged dp =>
        (sortPairs (filterEstimates dp.feeEstimates minRelayFeeRate feeMinimum)).foldl
          insertStep merged)
      init) :
    kv ∈ init ∨ ∃ dp, dp ∈ dps ∧ kv ∈ dp.feeEstimates := by
  induction dps generalizing init with
  | nil => exact Or.inl h
  | cons hd tl ih =>
    rcases ih _ h with h2 | h2
    · rcases foldl_insertStep_mem _ init kv h2 with h3 | h3
      · exact Or.inl h3
      · refine Or.inr ⟨hd, List.mem_cons_self _ _, ?_⟩
        exact ((mem_filterEstimates _ _ _ kv).mp ((mem_sortPairs _ kv).mp h3)).1
    · obtain ⟨dp, hdp, hkv⟩ := h2
      exact Or.inr ⟨dp, List.mem_cons_of_mem _ hdp, hkv⟩

theorem mergeFeeEstimates_mem_src (feeMinimum : ℚ) (dps : List DataPoint)
    (minRelayFeeRate : ℚ) (kv : Nat × ℚ)
    (h : kv ∈ mergeFeeEstimates feeMinimum dps minRelayFeeRate) :
    ∃ dp, dp ∈ dps ∧ kv ∈ dp.feeEstimates := by
  unfold mergeFeeEstimates at h
  rcases foldl_merge_mem_src feeMinimum minRelayFeeRate dps [] kv h with h2 | h2
  · cases h2
  · exact h2

/-! ### Claim C1: monotonicity of the merged fee curve -/

/-- C1: for every output of the curve merge and any two targets `t1 < t2`
present in the merged mapping, the fee at `t1` is at least the fee at `t2`. -/
theorem merged_curve_monotone (feeMinimum minRelayFeeRate : ℚ)
    (dataPoints : List DataPoint) (t1 t2 : Nat) (f1 f2 : ℚ)
    (h1 : (t1, f1) ∈ mergeFeeEstimates feeMinimum dataPoints minRelayFeeRate)
    (h2 : (t2, f2) ∈ mergeFeeEstimates feeMinimum dataPoints minRelayFeeRate)
    (hlt : t1 < t2) : f2 ≤ f1 :=
  le_of_lt
    (strictCurve_rel _ (mergeFeeEstimates_strict feeMinimum dataPoints minRelayFeeRate)
      (t1, f1) (t2, f2) h1 h2 hlt)

/-- Witness for C1 on a concrete snapshot. -/
theorem merged_curve_monotone_witness :
    (1, (10 : ℚ)) ∈ mergeFeeEstimates 1 [dpWa] 0 ∧
      (2, (5 : ℚ)) ∈ mergeFeeEstimates 1 [dpWa] 0 ∧ (5 : ℚ) ≤ 10 :=
  ⟨List.Mem.head _, List.Mem.tail _ (List.Mem.head _),
    merged_curve_monotone 1 0 [dpWa] 1 2 10 5 (List.Mem.head _)
      (List.Mem.tail _ (List.Mem.head _)) (by decide)⟩

/-! ### Claim C2: the insertion rule of the merge loop -/

/-- C2 counterexample: the pair `(5, 0.5)` of the snapshot is processed while
the merged mapping is empty, so the claimed insertion rule would admit it, yet
the code discards it because it is below the configured fee minimum `1` (the
per-snapshot floor filter runs before the insertion test). -/
theorem merge_insertion_rule_cex :
    (5, (1 : ℚ)) ∈ dpX2.feeEstimates ∧
      ¬ (5, (1 : ℚ)) ∈ mergeFeeEstimates 2 [dpX2] 0 ∧
      mergeFeeEstimates 2 [dpX2] 0 = [] := by
  refine ⟨List.Mem.head _, ?_, by decide⟩
  intro h
  rw [show mergeFeeEstimates 2 [dpX2] 0 = [] from by decide] at h
  cases h

/-- C2 amended: the merge processes each snapshot's floor-filtered pairs in
ascending target order, appending a pair iff the merged mapping is empty or
the pair strictly extends the target frontier with a strictly lower fee;
every other pair is discarded, and a pair survives the floor filter iff its
fee is at least the configured minimum and at least the min relay fee rate. -/
theorem merge_insertion_rule (m es : List (Nat × ℚ)) (kv : Nat × ℚ)
    (minRelayFeeRate feeMinimum : ℚ) :
    (insertStep m kv = m ++ [kv] ↔
      m = [] ∨ (maxKeyNat m < kv.1 ∧ kv.2 < minValQ m)) ∧
    (insertStep m kv = m ++ [kv] ∨ insertStep m kv = m) ∧
    (kv ∈ filterEstimates es minRelayFeeRate feeMinimum ↔
      kv ∈ es ∧ feeMinimum ≤ kv.2 ∧ minRelayFeeRate ≤ kv.2) ∧
    (sortPairs es).Perm es ∧ (sortPairs es).Pairwise keyLE := by
  refine ⟨⟨?_, ?_⟩, ?_, mem_filterEstimates es minRelayFeeRate feeMinimum kv,
    List.perm_insertionSort keyLE es, List.sorted_insertionSort keyLE es⟩
  · intro h
    by_contra hc
    rw [insertStep, if_neg hc] at h
    have hlen := congrArg List.length h
    simp at hlen
  · intro h
    rw [insertStep, if_pos h]
  · unfold insertStep
    by_cases hc : m = [] ∨ (maxKeyNat m < kv.1 ∧ kv.2 < minValQ m)
    · rw [if_pos hc]
      exact Or.inl rfl
    · rw [if_neg hc]
      exact Or.inr rfl

/-! ### Bridge lemmas for the `mkRat` spellings -/

theorem epsJS_eq : epsJS = 1 / 2 ^ 52 := by
  unfold epsJS
  rw [Rat.mkRat_eq_div]
  norm_num

theorem jsRound_eq (x : ℚ) : jsRound x = ⌊x + 1 / 2⌋ := by
  unfold jsRound
  rw [jsFloor_eq, Rat.mkRat_eq_div]
  norm_num

theorem round3_eq (v : ℚ) :
    round3 v = ((jsRound ((v + epsJS) * 1000) : ℤ) : ℚ) / 1000 := by
  unfold round3
  rw [Rat.mkRat_eq_div]
  norm_num

/-! ### Claim C3: floor enforcement on the final output -/

/-- C3 amended: when at least one merged entry survives the floor filter,
every fee in the final `fee_by_block_target` is at least
`ceil(effectiveFloor * feeMultiplier * 1000)` with
`effectiveFloor = max feeMinimum highestObservedMinRelayFeeRate`; the
synthesized fallback entry of the empty-merge case is exempt (see the
counterexample). -/
theorem final_fees_respect_floor (maxHeightDelta : Nat)
    (feeMultiplier feeMinimum : ℚ) (fetched : List DataPoint) (est : Estimates)
    (t : Nat) (f : ℚ) (hmult : 0 ≤ feeMultiplier)
    (hsome : computeEstimates maxHeightDelta feeMultiplier feeMinimum fetched =
      some est)
    (hmerged : mergeFeeEstimates feeMinimum
        (getRelevantDataPoints maxHeightDelta (getSortedDataPoints fetched))
        (getHighestMinRelayFeeRate
          (getRelevantDataPoints maxHeightDelta (getSortedDataPoints fetched))) ≠ [])
    (hmem : (t, f) ∈ est.fee_by_block_target) :
    ((⌈max feeMinimum
          (getHighestMinRelayFeeRate
            (getRelevantDataPoints maxHeightDelta (getSortedDataPoints fetched))) *
        feeMultiplier * 1000⌉ : ℤ) : ℚ) ≤ f := by
  cases hrel : getRelevantDataPoints maxHeightDelta (getSortedDataPoints fetched) with
  | nil =>
    unfold computeEstimates at hsome
    rw [hrel] at hsome
    simp [assembleEstimates] at hsome
  | cons top rest =>
    unfold computeEstimates at hsome
    rw [hrel] at hsome
    simp only [assembleEstimates, Option.some.injEq] at hsome
    subst hsome
    rw [hrel] at hmerged
    simp only at hmem
    have hpf : postFees feeMultiplier
        (mergeFeeEstimates feeMinimum (top :: rest)
          (getHighestMinRelayFeeRate (top :: rest))) ≠ [] := by
      intro hpf
      unfold postFees at hpf
      exact hmerged (List.map_eq_nil_iff.mp hpf)
    rw [if_neg hpf] at hmem
    unfold postFees at hmem
    obtain ⟨kv, hkv, heq⟩ := List.mem_map.mp hmem
    have hf : f = ((jsCeil (kv.2 * (1000 * feeMultiplier)) : ℤ) : ℚ) :=
      (congrArg Prod.snd heq).symm
    have hbound := mergeFeeEstimates_mem_bound feeMinimum (top :: rest)
      (getHighestMinRelayFeeRate (top :: rest)) kv hkv
    have heff : max feeMinimum (getHighestMinRelayFeeRate (top :: rest)) ≤ kv.2 :=
      max_le hbound.1 hbound.2
    rw [hf, jsCeil_eq]
    apply Int.cast_le.mpr
    apply Int.ceil_le_ceil
    calc max feeMinimum (getHighestMinRelayFeeRate (top :: rest)) *
          feeMultiplier * 1000
        = max feeMinimum (getHighestMinRelayFeeRate (top :: rest)) *
          (1000 * feeMultiplier) := by ring
      _ ≤ kv.2 * (1000 * feeMultiplier) :=
          mul_le_mul_of_nonneg_right heff (mul_nonneg (by norm_num) hmult)

section

/- The core `Rat` arithmetic operations are `@[irreducible]`, which blocks
`decide` on concrete evaluations of the pipeline; they are made locally
semireducible for the closed instance theorems below. -/
attribute [local semireducible] Rat.mul Rat.add Rat.sub Rat.inv

/-- Witness for C3 on a concrete snapshot whose merged entry survives. -/
theorem final_fees_respect_floor_witness :
    computeEstimates 1 2 2 [dpW3] = some ⟨100, "hw3", [(1, 20000)], 2000⟩ ∧
      ((⌈max (2 : ℚ)
            (getHighestMinRelayFeeRate
              (getRelevantDataPoints 1 (getSortedDataPoints [dpW3]))) *
          2 * 1000⌉ : ℤ) : ℚ) ≤ 20000 :=
  ⟨by decide,
    final_fees_respect_floor 1 2 2 [dpW3] ⟨100, "hw3", [(1, 20000)], 2000⟩ 1 20000
      (by decide) (by decide) (by decide) (List.Mem.head _)⟩

/-- C3 counterexample: with `feeMinimum = 2`, `feeMultiplier = 2` and all
provider fees below the floor, the synthesized fallback entry is `2000`,
strictly below `ceil(effectiveFloor * feeMultiplier * 1000) = 4000`. -/
theorem final_fees_respect_floor_cex :
    computeEstimates 1 2 2 [dpX3] = some ⟨100, "h3", [(1, 2000)], 2000⟩ ∧
      (1, (2000 : ℚ)) ∈ Estimates.fee_by_block_target ⟨100, "h3", [(1, 2000)], 2000⟩ ∧
      (2000 : ℚ) < ((⌈max (2 : ℚ)
          (getHighestMinRelayFeeRate
            (getRelevantDataPoints 1 (getSortedDataPoints [dpX3]))) *
          2 * 1000⌉ : ℤ) : ℚ) := by
  refine ⟨by decide, List.Mem.head _, ?_⟩
  rw [← jsCeil_eq]
  decide

/-! ### Claim C4: the synthesized fallback entry and non-emptiness -/

/-- C4 amended: the final mapping is never empty, and when no merged entry
survives it is exactly one entry at target 1 whose fee is
`max (feeMinimum * 1000) (highestMinRelayFeeRate * 1000 * feeMultiplier)`
(the configured minimum is not scaled by the multiplier and no ceiling is
applied, unlike what the claim states). -/
theorem fallback_entry_and_nonempty (maxHeightDelta : Nat)
    (feeMultiplier feeMinimum : ℚ) (fetched : List DataPoint) (est : Estimates)
    (hsome : computeEstimates maxHeightDelta feeMultiplier feeMinimum fetched =
      some est) :
    est.fee_by_block_target ≠ [] ∧
      (mergeFeeEstimates feeMinimum
          (getRelevantDataPoints maxHeightDelta (getSortedDataPoints fetched))
          (getHighestMinRelayFeeRate
            (getRelevantDataPoints maxHeightDelta (getSortedDataPoints fetched))) = [] →
        est.fee_by_block_target =
          [(1, max (feeMinimum * 1000)
              (getHighestMinRelayFeeRate
                  (getRelevantDataPoints maxHeightDelta (getSortedDataPoints fetched)) *
                (1000 * feeMultiplier)))]) := by
  cases hrel : getRelevantDataPoints maxHeightDelta (getSortedDataPoints fetched) with
  | nil =>
    unfold computeEstimates at hsome
    rw [hrel] at hsome
    simp [assembleEstimates] at hsome
  | cons top rest =>
    unfold computeEstimates at hsome
    rw [hrel] at hsome
    simp only [assembleEstimates, Option.some.injEq] at hsome
    subst hsome
    constructor
    · simp only
      by_cases hpf : postFees feeMultiplier
          (mergeFeeEstimates feeMinimum (top :: rest)
            (getHighestMinRelayFeeRate (top :: rest))) = []
      · rw [if_pos hpf]
        simp
      · rw [if_neg hpf]
        exact hpf
    · intro hm
      simp only
      rw [if_pos (by rw [hm]; rfl)]

/-- Witness for C4 on a concrete snapshot filtered out entirely. -/
theorem fallback_entry_and_nonempty_witness :
    Estimates.fee_by_block_target ⟨100, "hw4", [(1, 2000)], 2000⟩ ≠ [] ∧
      (mergeFeeEstimates 2 (getRelevantDataPoints 1 (getSortedDataPoints [dpW4]))
          (getHighestMinRelayFeeRate
            (getRelevantDataPoints 1 (getSortedDataPoints [dpW4]))) = [] →
        Estimates.fee_by_block_target ⟨100, "hw4", [(1, 2000)], 2000⟩ =
          [(1, max ((2 : ℚ) * 1000)
              (getHighestMinRelayFeeRate
                  (getRelevantDataPoints 1 (getSortedDataPoints [dpW4])) *
                (1000 * 3)))]) :=
  fallback_entry_and_nonempty 1 3 2 [dpW4] ⟨100, "hw4", [(1, 2000)], 2000⟩ (by decide)

/-- C4 counterexample: with `feeMinimum = 3`, `feeMultiplier = 2` the
synthesized entry is `3000`, not `ceil(effectiveFloor * feeMultiplier * 1000)
= 6000` — the configured minimum is not multiplied by the fee multiplier. -/
theorem fallback_entry_cex :
    computeEstimates 1 2 3 [dpX4] = some ⟨100, "h4", [(1, 3000)], 3000⟩ ∧
      (3000 : ℚ) ≠ ((⌈max (3 : ℚ)
          (getHighestMinRelayFeeRate
            (getRelevantDataPoints 1 (getSortedDataPoints [dpX4]))) *
          2 * 1000⌉ : ℤ) : ℚ) := by
  refine ⟨by decide, ?_⟩
  rw [← jsCeil_eq]
  decide

/-! ### Claim C5: relevance filtering -/

/-- C5 amended: the relevance filter compares heights against the top-ranked
(first sorted) snapshot, not against the maximum height: it retains exactly
the snapshots within `maxHeightDelta` of the top-ranked snapshot's height,
and the merged mapping only contains pairs contributed by retained
snapshots. -/
theorem relevance_filter_uses_top_height (maxHeightDelta : Nat)
    (top dp : DataPoint) (rest : List DataPoint)
    (feeMinimum minRelayFeeRate : ℚ) :
    (dp ∈ getRelevantDataPoints maxHeightDelta (top :: rest) ↔
      dp ∈ top :: rest ∧
        (top.blockHeight : ℤ) - (dp.blockHeight : ℤ) ≤ (maxHeightDelta : ℤ)) ∧
    (∀ kv ∈ mergeFeeEstimates feeMinimum
        (getRelevantDataPoints maxHeightDelta (top :: rest)) minRelayFeeRate,
      ∃ dp2, dp2 ∈ getRelevantDataPoints maxHeightDelta (top :: rest) ∧
        kv ∈ dp2.feeEstimates) := by
  constructor
  · rw [getRelevantDataPoints_cons, List.mem_cons, List.mem_filter]
    simp only [List.mem_cons, decide_eq_true_eq]
    constructor
    · rintro (h | ⟨h1, h2⟩)
      · subst h
        exact ⟨Or.inl rfl, by simp⟩
      · exact ⟨Or.inr h1, h2⟩
    · rintro ⟨h | h, h2⟩
      · exact Or.inl h
      · exact Or.inr ⟨h, h2⟩
  · intro kv hkv
    exact mergeFeeEstimates_mem_src _ _ _ kv hkv

/-- C5 counterexample: a mempool snapshot (height 1000) ranks above a fresher
non-mempool snapshot (height 1005), so the filter baseline is 1000: the
mempool snapshot is 5 blocks behind the best height with
`maxHeightDelta = 1`, yet it is retained and its fee pair reaches the merged
result. -/
theorem relevance_filter_cex :
    getSortedDataPoints [dpB5, dpM5] = [dpM5, dpB5] ∧
      getRelevantDataPoints 1 (getSortedDataPoints [dpB5, dpM5]) = [dpM5, dpB5] ∧
      dpB5.blockHeight - dpM5.blockHeight = 5 ∧ 1 + 1 ≤ 5 ∧
      (1, (10 : ℚ)) ∈ mergeFeeEstimates 1
        (getRelevantDataPoints 1 (getSortedDataPoints [dpB5, dpM5]))
        (getHighestMinRelayFeeRate
          (getRelevantDataPoints 1 (getSortedDataPoints [dpB5, dpM5]))) ∧
      (1, (10 : ℚ)) ∈ dpM5.feeEstimates := by
  refine ⟨by decide, by decide, by decide, by decide, by decide, List.Mem.head _⟩

/-! ### Claim C6: ranking order and the reported chain state -/

/-- C6: the sorted list is a permutation of the fetched snapshots ordered by
category (mempool first), then height descending, then registration order,
and `getData` reports the height and hash of the top-ranked snapshot. -/
theorem ranking_and_seed (maxHeightDelta : Nat) (feeMultiplier feeMinimum : ℚ)
    (fetched : List DataPoint) (est : Estimates)
    (hsome : computeEstimates maxHeightDelta feeMultiplier feeMinimum fetched =
      some est) :
    (getSortedDataPoints fetched).Perm fetched ∧
      (getSortedDataPoints fetched).Pairwise RankBefore ∧
      (getSortedDataPoints fetched).head?.map (fun dp => dp.blockHeight) =
        some est.current_block_height ∧
      (getSortedDataPoints fetched).head?.map (fun dp => dp.blockHash) =
        some est.current_block_hash := by
  cases hs : getSortedDataPoints fetched with
  | nil =>
    have hnil : fetched = [] := (getSortedDataPoints_eq_nil_iff fetched).mp hs
    rw [(computeEstimates_eq_none_iff maxHeightDelta feeMultiplier feeMinimum
      fetched).mpr hnil] at hsome
    cases hsome
  | cons top rest =>
    unfold computeEstimates at hsome
    rw [hs, getRelevantDataPoints_cons] at hsome
    simp only [assembleEstimates, Option.some.injEq] at hsome
    refine ⟨hs ▸ getSortedDataPoints_perm fetched,
      hs ▸ getSortedDataPoints_pairwise fetched, ?_, ?_⟩
    · rw [← hsome]
      rfl
    · rw [← hsome]
      rfl

/-- Witness for C6 with a single registered provider. -/
theorem ranking_and_seed_witness :
    (getSortedDataPoints [dpW6]).Perm [dpW6] ∧
      (getSortedDataPoints [dpW6]).Pairwise RankBefore ∧
      (getSortedDataPoints [dpW6]).head?.map (fun dp => dp.blockHeight) =
        some (Estimates.current_block_height ⟨500, "h6", [(1, 7000)], 1000⟩) ∧
      (getSortedDataPoints [dpW6]).head?.map (fun dp => dp.blockHash) =
        some (Estimates.current_block_hash ⟨500, "h6", [(1, 7000)], 1000⟩) :=
  ranking_and_seed 1 1 1 [dpW6] ⟨500, "h6", [(1, 7000)], 1000⟩ (by decide)

/-! ### Claim C7: the worked example of the specification -/

/-- C7 amended: on the spec's example inputs the engine returns
`{1: 40000, 2: 30000, 3: 10000, 5: 6000}` at height 1001 — source A (ranked
first) seeds the curve with its target-1 fee 20, so B's entries `{1: 30,
2: 20}` never qualify; the spec's expected `{1: 60000, 2: 40000, ...}` does
not match the code. -/
theorem example_scenario :
    computeEstimates 2 2 2 (fetchDataPoints [some dpA7, some dpB7, some dpC7]) =
      some ⟨1001, "hashA", [(1, 40000), (2, 30000), (3, 10000), (5, 6000)], 2000⟩ := by
  decide

/-- C7 counterexample: the fee mapping of the spec's example is not the
claimed `{1: 60000, 2: 40000, 3: 10000, 5: 6000}`. -/
theorem example_scenario_cex :
    (computeEstimates 2 2 2 (fetchDataPoints [some dpA7, some dpB7, some dpC7])).map
        (fun e => e.fee_by_block_target) ≠
      some [(1, 60000), (2, 40000), (3, 10000), (5, 6000)] := by
  decide

/-! ### Claim C8: isolation of provider failures -/

/-- C8: a throwing provider contributes nothing and does not disturb the
other providers' data points; the computation fails exactly when no usable
data point remains. -/
theorem provider_failure_isolated (maxHeightDelta : Nat)
    (feeMultiplier feeMinimum : ℚ) (first₁ rest₁ : List (Option DataPoint)) :
    fetchDataPoints (first₁ ++ none :: rest₁) = fetchDataPoints (first₁ ++ rest₁) ∧
      (computeEstimates maxHeightDelta feeMultiplier feeMinimum
          (fetchDataPoints (first₁ ++ none :: rest₁)) = none ↔
        (first₁ ++ rest₁).filterMap id = []) := by
  constructor
  · unfold fetchDataPoints
    simp
  · rw [computeEstimates_eq_none_iff, fetchDataPoints_eq_nil_iff]
    simp

/-! ### Claim C9: idempotent caching -/

/-- C9: a first `getData` call on an empty cache runs one collection cycle
and stores its result; any second call within the TTL window returns the
identical value, runs no collection cycle, and leaves the cache unchanged. -/
theorem cached_query_idempotent (stdTTL : ℚ) (maxHeightDelta : Nat)
    (feeMultiplier feeMinimum : ℚ)
    (outcomes outcomes₂ : List (Option DataPoint)) (t0 t1 : ℚ) (est : Estimates)
    (hcompute : computeEstimates maxHeightDelta feeMultiplier feeMinimum
      (fetchDataPoints outcomes) = some est)
    (hwindow : stdTTL = 0 ∨ t1 < t0 + stdTTL) :
    getData stdTTL maxHeightDelta feeMultiplier feeMinimum outcomes t0 ⟨none⟩ =
      (some est, cacheSet t0 est, 1) ∧
    getData stdTTL maxHeightDelta feeMultiplier feeMinimum outcomes₂ t1
        (cacheSet t0 est) =
      (some est, cacheSet t0 est, 0) := by
  constructor
  · unfold getData
    have hc : cacheGet stdTTL t0 ⟨none⟩ = none := rfl
    rw [hc, hcompute]
  · unfold getData
    have hc : cacheGet stdTTL t1 (cacheSet t0 est) = some est := by
      unfold cacheGet cacheSet
      exact if_pos hwindow
    rw [hc]

/-- Witness for C9: two calls at times 0 and 5 with a TTL of 10; the second
call is given no provider outcomes at all and still returns the cached
value. -/
theorem cached_query_idempotent_witness :
    getData 10 1 1 1 [some dpW9] 0 ⟨none⟩ =
      (some ⟨800, "h9", [(1, 12000)], 1000⟩,
        cacheSet 0 ⟨800, "h9", [(1, 12000)], 1000⟩, 1) ∧
    getData 10 1 1 1 [] 5 (cacheSet 0 ⟨800, "h9", [(1, 12000)], 1000⟩) =
      (some ⟨800, "h9", [(1, 12000)], 1000⟩,
        cacheSet 0 ⟨800, "h9", [(1, 12000)], 1000⟩, 0) :=
  cached_query_idempotent 10 1 1 1 [some dpW9] [] 0 5
    ⟨800, "h9", [(1, 12000)], 1000⟩ (by decide) (by decide)

/-! ### Claim C10: rounding of fetched fee estimates -/

/-- C10: every fee in a fetched data point is the 3-decimal rounding of the
provider's raw value, hence an integer multiple of 1/1000. -/
theorem fetched_fees_rounded (outcomes : List (Option DataPoint))
    (dp : DataPoint) (t : Nat) (f : ℚ) (hdp : dp ∈ fetchDataPoints outcomes)
    (hf : (t, f) ∈ dp.feeEstimates) :
    (∃ n : ℤ, f = (n : ℚ) / 1000) ∧
      ∃ dp0 raw, dp0 ∈ outcomes.filterMap id ∧ dp = roundDataPoint dp0 ∧
        (t, raw) ∈ dp0.feeEstimates ∧ f = round3 raw := by
  unfold fetchDataPoints at hdp
  obtain ⟨dp0, hdp0, hdpeq⟩ := List.mem_map.mp hdp
  subst hdpeq
  unfold roundDataPoint at hf
  simp only at hf
  obtain ⟨kv, hkv, hkveq⟩ := List.mem_map.mp hf
  have ht : kv.1 = t := congrArg Prod.fst hkveq
  have hfeq : round3 kv.2 = f := congrArg Prod.snd hkveq
  constructor
  · refine ⟨jsRound ((kv.2 + epsJS) * 1000), ?_⟩
    rw [← hfeq]
    unfold round3
    rw [Rat.mkRat_eq_div]
    norm_num
  · refine ⟨dp0, kv.2, hdp0, rfl, ?_, hfeq.symm⟩
    rw [← ht]
    exact hkv

/-- Witness for C10: the raw fee 1.2345 becomes 1.235 after fetching. -/
theorem fetched_fees_rounded_witness :
    (∃ n : ℤ, (mkRat 247 200 : ℚ) = (n : ℚ) / 1000) ∧
      ∃ dp0 raw, dp0 ∈ ([some dpW10] : List (Option DataPoint)).filterMap id ∧
        roundDataPoint dpW10 = roundDataPoint dp0 ∧ (1, raw) ∈ dp0.feeEstimates ∧
        (mkRat 247 200 : ℚ) = round3 raw :=
  fetched_fees_rounded [some dpW10] (roundDataPoint dpW10) 1 (mkRat 247 200)
    (by decide) (by decide)

end
